import Mathlib

set_option maxHeartbeats 1000000

/-! Shallow embedding of the ALLProcessFilter repository (src/filter.py and
src/check.py): asset-code normalization, row classification, multi-value
splitting, duplicate detection and the derived report views. -/

/-- A Python/pandas cell value: missing (NaN), a string, or a number. -/
inductive PyVal where
  | na : PyVal
  | str : String → PyVal
  | int : Int → PyVal
deriving DecidableEq, Repr

/-- A spreadsheet row: the asset-code field (column `รหัสทรัพย์สิน`) plus the
remaining named fields. -/
structure Row where
  asset : PyVal
  others : List (String × PyVal)
deriving DecidableEq, Repr

/-- Python `str(value)`: NaN prints as "nan", numbers in decimal. -/
def pyStr : PyVal → String
  | .na => "nan"
  | .str s => s
  | .int n => toString n

/-- Python `str.strip()`: drop leading and trailing whitespace. -/
def pyStrip (s : String) : String :=
  ⟨((s.data.dropWhile Char.isWhitespace).reverse.dropWhile Char.isWhitespace).reverse⟩

/-- Python `str.isdigit()` (restricted to ASCII decimal digits): the string is
nonempty and every character is a decimal digit. -/
def pyIsDigit (s : String) : Bool :=
  !s.data.isEmpty && s.data.all Char.isDigit

/-- The list starts with the given needle. -/
def leadsWith : List Char → List Char → Bool
  | [], _ => true
  | _ :: _, [] => false
  | a :: as, b :: bs => a == b && leadsWith as bs

/-- The needle occurs as a contiguous substring of the haystack. -/
def occursIn : List Char → List Char → Bool
  | needle, [] => needle.isEmpty
  | needle, c :: rest => leadsWith needle (c :: rest) || occursIn needle rest

/-- Python `term in s` on strings: substring containment. -/
def pyIn (term s : String) : Bool := occursIn term.data s.data

/-- The block-list of known junk tokens (filter.py, `INCORRECT_TERMS`). -/
def INCORRECT_TERMS : List String :=
  ["รหัสทรัพย์สิน", "ไม่มี", "Computer", "Notebook", "ไม่มีรหัสทรัพย์สิน",
   "แทบเล็ต", "รายละเอียด", "nan", "-", "์Notebook", "ทบ. 5589338",
   "ทบ. 5589339 (รูปเครื่อง)"]

/-- filter.py `is_invalid_asset`: check if the asset value is invalid. -/
def is_invalid_asset (v : PyVal) : Bool :=
  match v with
  | .na => true
  | .int _ => true
  | .str s =>
    if pyStrip s = "" then true
    else if pyIsDigit s && s.data.all (· == '0') then true
    else if !pyIsDigit s then true
    else if INCORRECT_TERMS.any (fun t => pyIn t s) then true
    else false

/-- filter.py `cleanse_asset_code`: remove non-numeric characters from asset
codes (re.sub of non-digits with ""); non-strings are returned unchanged. -/
def cleanse_asset_code (v : PyVal) : PyVal :=
  match v with
  | .str s => .str ⟨s.data.filter Char.isDigit⟩
  | w => w

/-- Model of `re.split` on a one-or-more character class: split the character
list at every maximal run of delimiter characters (runs at the ends produce
empty pieces, exactly as re.split does). -/
def splitRuns (isD : Char → Bool) : List Char → List (List Char)
  | [] => [[]]
  | c :: rest =>
    if isD c then
      match rest with
      | d :: _ =>
        if isD d then splitRuns isD rest
        else [] :: splitRuns isD rest
      | [] => [] :: splitRuns isD rest
    else
      match splitRuns isD rest with
      | [] => [[c]]
      | t :: ts => (c :: t) :: ts

/-- The delimiter class of filter.py's split loop: `[ ,]+`. -/
def isFilterDelim (c : Char) : Bool := c == ' ' || c == ','

/-- The delimiter class of check.py's `process_comparison`: space, comma,
slash, backslash, asterisk. -/
def isCheckDelim (c : Char) : Bool :=
  c == ' ' || c == ',' || c == '/' || c == '\\' || c == '*'

/-- Shared token extraction shape of both source files:
`filter(None, map(str.strip, re.split(..., s)))` — split on runs of the
delimiter class, strip every piece, keep only the nonempty ones. -/
def pySplitTokens (isD : Char → Bool) (s : String) : List String :=
  ((splitRuns isD s.data).map (fun t => pyStrip ⟨t⟩)).filter (fun t => t != "")

/-- filter.py `process_excel` split loop (lines 81-88): one new row per kept
token, a copy of the source row with the asset field replaced by the token. -/
def splitInvalidRow (r : Row) : List Row :=
  (pySplitTokens isFilterDelim (pyStr r.asset)).map
    (fun tok => { r with asset := PyVal.str tok })

/-- The cleansing step applied to each correct row (filter.py line 77). -/
def cleanseRow (r : Row) : Row := { r with asset := cleanse_asset_code r.asset }

/-- filter.py `correct_data`: the rows whose asset value is not invalid, with
their asset codes cleansed. -/
def correct_data (df : List Row) : List Row :=
  (df.filter (fun r => ! is_invalid_asset r.asset)).map cleanseRow

/-- filter.py `incorrect_data`: the rows whose asset value is invalid. -/
def incorrect_data (df : List Row) : List Row :=
  df.filter (fun r => is_invalid_asset r.asset)

/-- filter.py `split_result`: all rows produced by splitting the invalid
rows, in source-row order. -/
def split_result (df : List Row) : List Row :=
  (incorrect_data df).flatMap splitInvalidRow

/-- filter.py `merged_result` (line 93): concatenation of the cleansed
correct rows and the split rows. -/
def merged_result (df : List Row) : List Row :=
  correct_data df ++ split_result df

/-- Positional model of pandas `duplicated(subset=[...], keep=False)`: a row
is marked when an equal key occurs at another position (before or after). -/
def dupAux (seen : List PyVal) : List PyVal → List Bool
  | [] => []
  | k :: rest => (decide (k ∈ seen) || decide (k ∈ rest)) :: dupAux (k :: seen) rest

/-- Duplicate marks for a key column, one Bool per row. -/
def dupMarks (keys : List PyVal) : List Bool := dupAux [] keys

/-- filter.py line 96: the "Duplicate" column, "Yes"/"No" per merged row. -/
def dupColumn (merged : List Row) : List String :=
  (dupMarks (merged.map Row.asset)).map (fun b => if b then "Yes" else "No")

/-- The merged dataset together with its "Duplicate" column. -/
def mergedWithDup (df : List Row) : List (Row × String) :=
  (merged_result df).zip (dupColumn (merged_result df))

/-- filter.py `duplicate_wrong_data` (lines 102-104): merged rows flagged
duplicate or whose (now split/cleansed) asset value is still invalid. -/
def duplicate_wrong_data (df : List Row) : List (Row × String) :=
  (mergedWithDup df).filter (fun p => p.2 == "Yes" || is_invalid_asset p.1.asset)

/-- filter.py `correct_no_duplicates` (line 107): merged rows whose
"Duplicate" column is "No". -/
def correct_no_duplicates (df : List Row) : List (Row × String) :=
  (mergedWithDup df).filter (fun p => p.2 == "No")

/-- The literal central-authority filter value of filter.py line 99. -/
def ASSET_FILTER_VALUE : String := "อภิสรา สีดาคุณ"

/-- The central-authority column name (filter.py `CENTRAL_ASSET_COLUMN`). -/
def CENTRAL_ASSET_COLUMN : String := "หน่วยงานกลางรับทราบและตรวจสอบ"

/-- filter.py `tara_silom_data` (line 99): correct rows whose
central-authority field equals the configured literal. -/
def tara_silom_data (df : List Row) : List Row :=
  (correct_data df).filter
    (fun r => (r.others.lookup CENTRAL_ASSET_COLUMN).getD PyVal.na == PyVal.str ASSET_FILTER_VALUE)

/-- filter.py `highlight_duplicates` (line 55): the set of column values that
occur more than once (as a deduplicated list). -/
def duplicateValues (vals : List PyVal) : List PyVal :=
  (vals.filter (fun v => 1 < vals.count v)).dedup

/-- filter.py `highlight_duplicates` (lines 58-61): which cells of the column
get the duplicate highlight. -/
def highlightedCells (vals : List PyVal) : List Bool :=
  vals.map (fun v => decide (v ∈ duplicateValues vals))

/-- check.py `cleanse`: strip non-digits from str(value) and parse as an
integer; None when the value is missing or no digits remain. -/
def digitsToNat (l : List Char) : Nat :=
  l.foldl (fun acc c => acc * 10 + (c.toNat - '0'.toNat)) 0

/-- check.py `cleanse` (lines 9-13). -/
def cleanse (v : PyVal) : Option Int :=
  match v with
  | .na => none
  | w =>
    let digits := (pyStr w).data.filter Char.isDigit
    if !digits.isEmpty then some ((digitsToNat digits : Nat) : Int) else none

/-- One output record of check.py `process_comparison`. -/
structure CompRecord where
  originalEntry : String
  extractedAsset : String
  cleanedAsset : Option Int
  matchStatus : String
deriving DecidableEq, Repr

/-- check.py `process_comparison` (lines 30-44): split each original row's
raw asset field on the check.py delimiter class and emit one report record
per kept token. -/
def process_comparison (original : List Row) (cleanedSet : List Int) : List CompRecord :=
  original.flatMap (fun r =>
    (pySplitTokens isCheckDelim (pyStr r.asset)).map (fun a =>
      let c := cleanse (PyVal.str a)
      { originalEntry := pyStr r.asset
        extractedAsset := a
        cleanedAsset := c
        matchStatus :=
          match c with
          | some n => if n ∈ cleanedSet then "Found" else "Missing"
          | none => "Missing" }))

/-- Result of an opaque read step: parsed value or exception message. -/
inductive ReadOutcome (α : Type) where
  | ok : α → ReadOutcome α
  | err : String → ReadOutcome α
deriving DecidableEq, Repr

/-- filter.py module-level UI (lines 148-164): try to list the workbook's
sheets; on exception show "Error reading sheets: ..." and offer no sheet, so
no processing runs and no output file is produced; otherwise process the
selected sheet. Returns (produced output, shown error message). -/
def runFilterApp {α : Type} (readResult : ReadOutcome (List String))
    (select : List String → String) (proc : String → α) : Option α × Option String :=
  match readResult with
  | .err e => (none, some ("Error reading sheets: " ++ e))
  | .ok [] => (none, none)
  | .ok (n :: ns) => (some (proc (select (n :: ns))), none)

/-- check.py module-level UI (lines 55-89): read both files and compare
inside one try block; any read failure shows "Error: ..." and produces no
report. -/
def runCompareApp (readOriginal : ReadOutcome (List Row))
    (readCleaned : ReadOutcome (List Int)) : Option (List CompRecord) × Option String :=
  match readOriginal, readCleaned with
  | .ok odf, .ok cs => (some (process_comparison odf cs), none)
  | .err e, _ => (none, some ("Error: " ++ e))
  | .ok _, .err e => (none, some ("Error: " ++ e))

/-- Modelled from the spec: the InputReadFailure policy of section 7 claims a
"fallback low-level cell-by-cell recovery reader" tried before surfacing a
read failure; no such fallback exists anywhere in src, so this definition
follows the spec's words: try the primary reader, on failure use the recovery
reader's outcome. -/
def readWithFallbackSpec (primary recovery : ReadOutcome (List String)) :
    ReadOutcome (List String) :=
  match primary with
  | .ok ns => .ok ns
  | .err _ => recovery

/-- Characters accepted by the spec's "conservative email-domain pattern". -/
def emailLikeChar (c : Char) : Bool :=
  c.isAlphanum || c == '.' || c == '-' || c == '_'

/-- Modelled from the spec: the Domain Summarizer's per-value domain
extraction (section 4.5; no such component exists in src): null/blank values
yield the configured default domain; otherwise take the lower-cased run of
email-like characters after the first at-sign, or "unknown" when the value is
not email-like. -/
def extract_domain (defaultDomain : String) (v : PyVal) : String :=
  if v = PyVal.na ∨ pyStrip (pyStr v) = "" then defaultDomain
  else
    match (pyStr v).data.dropWhile (fun c => !(c == '@')) with
    | [] => "unknown"
    | _ :: rest =>
      let dom := rest.takeWhile emailLikeChar
      if dom.isEmpty then "unknown" else ⟨dom.map Char.toLower⟩

/-- Modelled from the spec: the Domain Summarizer's frequency table (section
4.5; no such component exists in src): one row per distinct extracted domain
with its count, sorted by descending count. -/
def domain_summary (defaultDomain : String) (vals : List PyVal) : List (String × Nat) :=
  let ds := vals.map (extract_domain defaultDomain)
  List.insertionSort (fun a b => b.2 ≤ a.2) (ds.dedup.map (fun d => (d, ds.count d)))

/-- Follows the words of claim C2: an asset value that is the empty string or
consists entirely of decimal digits. -/
def empty_or_all_digits (v : PyVal) : Bool :=
  match v with
  | .str s => s == "" || s.data.all Char.isDigit
  | _ => false

/-- Follows the words of claim C5 as stated: the disjunction of its five
conditions, with the all-zero and non-digit checks applied to the trimmed
value. -/
def invalid_spec_claimed (v : PyVal) : Bool :=
  match v with
  | .na => true
  | .int _ => true
  | .str s =>
    (pyStrip s == "") ||
    (pyIsDigit (pyStrip s) && (pyStrip s).data.all (· == '0')) ||
    ((pyStrip s).data.any (fun c => !c.isDigit)) ||
    (INCORRECT_TERMS.any (fun t => pyIn t s))

/-- Follows the words of the amended claim C5: same disjunction, but the
all-zero and non-digit checks apply to the raw (untrimmed) value. -/
def invalid_spec_amended (v : PyVal) : Bool :=
  match v with
  | .na => true
  | .int _ => true
  | .str s =>
    (pyStrip s == "") ||
    (pyIsDigit s && s.data.all (· == '0')) ||
    (s.data.any (fun c => !c.isDigit)) ||
    (INCORRECT_TERMS.any (fun t => pyIn t s))

/-! Helper lemmas about characters, stripping and splitting. -/

theorem whitespace_not_digit {c : Char} (h : c.isWhitespace = true) : c.isDigit = false := by
  simp only [Char.isWhitespace, Bool.or_eq_true, decide_eq_true_eq] at h
  rcases h with ((rfl | rfl) | rfl) | rfl <;> decide

theorem digit_not_space {c : Char} (h : c.isDigit = true) : c ≠ ' ' ∧ c ≠ ',' := by
  constructor <;> rintro rfl <;> simp at h

theorem dropWhile_eq_self_of_all {α : Type} {p : α → Bool} {l : List α}
    (h : ∀ c ∈ l, p c = false) : l.dropWhile p = l := by
  cases l with
  | nil => rfl
  | cons a t =>
    exact List.dropWhile_cons_of_neg (by simp [h a (List.mem_cons_self a t)])

theorem pyStrip_of_no_ws {s : String} (h : ∀ c ∈ s.data, c.isWhitespace = false) :
    pyStrip s = s := by
  obtain ⟨l⟩ := s
  simp only [pyStrip] at h ⊢
  rw [dropWhile_eq_self_of_all h,
    dropWhile_eq_self_of_all (fun c hc => h c (List.mem_reverse.mp hc))]
  simp

theorem pyStrip_sublist (s : String) : (pyStrip s).data.Sublist s.data := by
  obtain ⟨l⟩ := s
  simp only [pyStrip]
  have h1 : ((l.dropWhile Char.isWhitespace).reverse.dropWhile Char.isWhitespace).reverse.Sublist
      (l.dropWhile Char.isWhitespace) := by
    have := (List.dropWhile_sublist (l := (l.dropWhile Char.isWhitespace).reverse)
      Char.isWhitespace).reverse
    simpa using this
  exact h1.trans (List.dropWhile_sublist _)

theorem digit_strip_self {s : String} (h : pyIsDigit s = true) : pyStrip s = s := by
  apply pyStrip_of_no_ws
  intro c hc
  have hd : c.isDigit = true := by
    simp only [pyIsDigit, Bool.and_eq_true, List.all_eq_true] at h
    exact h.2 c hc
  cases hw : c.isWhitespace with
  | false => rfl
  | true => rw [whitespace_not_digit hw] at hd; cases hd

theorem splitRuns_ne_nil (isD : Char → Bool) (cs : List Char) : splitRuns isD cs ≠ [] := by
  induction cs with
  | nil => simp [splitRuns]
  | cons c rest ih =>
    rw [splitRuns.eq_def]
    dsimp only
    by_cases h : isD c = true
    · rw [if_pos h]
      cases rest with
      | nil => simp
      | cons d rest' =>
        dsimp only
        by_cases hd : isD d = true
        · rw [if_pos hd]
          exact ih
        · rw [if_neg hd]
          simp
    · rw [if_neg h]
      cases hs : splitRuns isD rest <;> simp

theorem splitRuns_no_delim (isD : Char → Bool) (cs : List Char) :
    ∀ t ∈ splitRuns isD cs, ∀ c ∈ t, isD c = false := by
  induction cs with
  | nil =>
    intro t ht c hc
    simp [splitRuns] at ht
    subst ht
    cases hc
  | cons c rest ih =>
    intro t ht c' hc'
    rw [splitRuns.eq_def] at ht
    dsimp only at ht
    by_cases h : isD c = true
    · rw [if_pos h] at ht
      have hmem : t = [] ∨ t ∈ splitRuns isD rest := by
        cases rest with
        | nil =>
          dsimp only at ht
          rcases List.mem_cons.mp ht with rfl | ht0 <;> [exact Or.inl rfl; exact Or.inr ht0]
        | cons d rest' =>
          dsimp only at ht
          by_cases hd : isD d = true
          · rw [if_pos hd] at ht
            exact Or.inr ht
          · rw [if_neg hd] at ht
            rcases List.mem_cons.mp ht with rfl | ht0 <;> [exact Or.inl rfl; exact Or.inr ht0]
      rcases hmem with rfl | hmem
      · cases hc'
      · exact ih t hmem c' hc'
    · rw [if_neg h] at ht
      cases hs : splitRuns isD rest with
      | nil => exact absurd hs (splitRuns_ne_nil isD rest)
      | cons t0 ts =>
        rw [hs] at ht
        rcases List.mem_cons.mp ht with rfl | ht0
        · rcases List.mem_cons.mp hc' with rfl | hc0
          · simpa using h
          · exact ih t0 (hs ▸ List.mem_cons_self t0 ts) c' hc0
        · exact ih t (hs ▸ List.mem_cons.mpr (Or.inr ht0)) c' hc'

theorem mem_pySplitTokens {isD : Char → Bool} {s tok : String}
    (h : tok ∈ pySplitTokens isD s) :
    tok ≠ "" ∧ ∀ c ∈ tok.data, isD c = false := by
  unfold pySplitTokens at h
  rw [List.mem_filter] at h
  obtain ⟨hm, hne⟩ := h
  rw [List.mem_map] at hm
  obtain ⟨t, ht, rfl⟩ := hm
  refine ⟨by simpa using hne, ?_⟩
  intro c hc
  have hsub : (pyStrip ⟨t⟩).data.Sublist t := pyStrip_sublist ⟨t⟩
  exact splitRuns_no_delim isD s.data t ht c (hsub.subset hc)

/-! Helper lemmas about the classifier, the normalizer and duplicate marks. -/

theorem valid_str {v : PyVal} (h : is_invalid_asset v = false) :
    ∃ s, v = PyVal.str s ∧ pyStrip s ≠ "" ∧ pyIsDigit s = true ∧
      (s.data.all (· == '0')) = false ∧
      (INCORRECT_TERMS.any (fun t => pyIn t s)) = false := by
  cases v with
  | na => simp [is_invalid_asset] at h
  | int n => simp [is_invalid_asset] at h
  | str s =>
    refine ⟨s, rfl, ?_⟩
    simp only [is_invalid_asset] at h
    by_cases h1 : pyStrip s = ""
    · rw [if_pos h1] at h; cases h
    · rw [if_neg h1] at h
      by_cases h2 : (pyIsDigit s && s.data.all (· == '0')) = true
      · rw [if_pos h2] at h; cases h
      · rw [if_neg h2] at h
        by_cases h3 : (!pyIsDigit s) = true
        · rw [if_pos h3] at h; cases h
        · by_cases h4 : (INCORRECT_TERMS.any (fun t => pyIn t s)) = true
          · rw [if_neg h3, if_pos h4] at h; cases h
          · refine ⟨h1, ?_, ?_, ?_⟩
            · simpa using h3
            · have hd : pyIsDigit s = true := by simpa using h3
              cases h0 : (s.data.all (· == '0')) with
              | false => rfl
              | true => exact absurd (by rw [hd, h0]; rfl) h2
            · simpa using h4

theorem valid_cleanse_id {v : PyVal} (h : is_invalid_asset v = false) :
    cleanse_asset_code v = v := by
  obtain ⟨s, rfl, _, hd, _, _⟩ := valid_str h
  simp only [cleanse_asset_code]
  obtain ⟨l⟩ := s
  have hall : ∀ c ∈ l, c.isDigit = true := by
    simp only [pyIsDigit, Bool.and_eq_true, List.all_eq_true] at hd
    exact hd.2
  simp [List.filter_eq_self.mpr hall]

theorem valid_cleanseRow_id {r : Row} (h : is_invalid_asset r.asset = false) :
    cleanseRow r = r := by
  simp [cleanseRow, valid_cleanse_id h]

theorem map_cleanseRow_id {l : List Row} (h : ∀ r ∈ l, is_invalid_asset r.asset = false) :
    l.map cleanseRow = l := by
  induction l with
  | nil => rfl
  | cons a t ih =>
    rw [List.map_cons, valid_cleanseRow_id (h a (List.mem_cons_self a t)),
      ih (fun r hr => h r (List.mem_cons.mpr (Or.inr hr)))]

theorem correct_data_eq (df : List Row) :
    correct_data df = df.filter (fun r => ! is_invalid_asset r.asset) := by
  unfold correct_data
  apply map_cleanseRow_id
  intro r hr
  simpa using (List.mem_filter.mp hr).2

theorem dupAux_length (l : List PyVal) : ∀ seen, (dupAux seen l).length = l.length := by
  induction l with
  | nil => intro seen; rfl
  | cons k rest ih => intro seen; simp [dupAux, ih]

theorem dupAux_getElem? (l : List PyVal) :
    ∀ (seen : List PyVal) (i : Nat) (k : PyVal) (m : Bool),
      l[i]? = some k → (dupAux seen l)[i]? = some m →
      (m = true ↔ (k ∈ seen ∨ k ∈ l.take i ∨ k ∈ l.drop (i + 1))) := by
  induction l with
  | nil => intro seen i k m h1 _; simp at h1
  | cons a rest ih =>
    intro seen i k m h1 h2
    cases i with
    | zero =>
      simp only [List.getElem?_cons_zero, Option.some.injEq] at h1
      subst h1
      simp only [dupAux, List.getElem?_cons_zero, Option.some.injEq] at h2
      subst h2
      simp
    | succ i =>
      simp only [List.getElem?_cons_succ] at h1
      simp only [dupAux, List.getElem?_cons_succ] at h2
      have := ih (a :: seen) i k m h1 h2
      simp only [List.mem_cons] at this ⊢
      rw [List.take_succ_cons, List.drop_succ_cons]
      simp only [List.mem_cons]
      tauto

theorem count_two_iff {keys : List PyVal} {i : Nat} {k : PyVal} (h : keys[i]? = some k) :
    2 ≤ keys.count k ↔ (k ∈ keys.take i ∨ k ∈ keys.drop (i + 1)) := by
  obtain ⟨hlt, hget⟩ := List.getElem?_eq_some_iff.mp h
  have hdrop : keys.drop i = k :: keys.drop (i + 1) := by
    rw [List.drop_eq_getElem_cons hlt, hget]
  have hsplit : keys = keys.take i ++ (k :: keys.drop (i + 1)) := by
    rw [← hdrop, List.take_append_drop]
  have hc : keys.count k = (keys.take i).count k + ((keys.drop (i + 1)).count k + 1) := by
    conv_lhs => rw [hsplit]
    rw [List.count_append, List.count_cons_self]
  rw [hc]
  constructor
  · intro h2
    by_cases hmem : k ∈ keys.take i
    · exact Or.inl hmem
    · right
      rw [← List.count_pos_iff]
      have := List.count_eq_zero.mpr hmem
      omega
  · intro h'
    rcases h' with h' | h' <;> have := List.count_pos_iff.mpr h' <;> omega

theorem dupColumn_length (merged : List Row) : (dupColumn merged).length = merged.length := by
  simp [dupColumn, dupMarks, dupAux_length]

theorem dupColumn_getElem? {merged : List Row} {i : Nat} {r : Row} (h : merged[i]? = some r) :
    (dupColumn merged)[i]? =
      some (if 2 ≤ ((merged.map Row.asset).count r.asset) then "Yes" else "No") := by
  have hk : (merged.map Row.asset)[i]? = some r.asset := by
    rw [List.getElem?_map, h]; rfl
  obtain ⟨hlt, _⟩ := List.getElem?_eq_some_iff.mp h
  have hltm : i < (dupMarks (merged.map Row.asset)).length := by
    rw [dupMarks, dupAux_length, List.length_map]; exact hlt
  cases hm : (dupMarks (merged.map Row.asset))[i]? with
  | none =>
    rw [List.getElem?_eq_none_iff] at hm
    omega
  | some m =>
    have hiff := dupAux_getElem? (merged.map Row.asset) [] i r.asset m hk hm
    simp only [List.not_mem_nil, false_or] at hiff
    have hcnt := count_two_iff hk
    rw [dupColumn, List.getElem?_map, hm, Option.map_some']
    congr 1
    cases m with
    | true =>
      rw [if_pos (hcnt.mpr (hiff.mp rfl))]
      rfl
    | false =>
      have hnot : ¬ 2 ≤ List.count r.asset (List.map Row.asset merged) := by
        intro hx
        cases hiff.mpr (hcnt.mp hx)
      rw [if_neg hnot]
      rfl

theorem mem_mergedWithDup {df : List Row} {p : Row × String} :
    p ∈ mergedWithDup df ↔
      p.1 ∈ merged_result df ∧
      p.2 = (if 2 ≤ (((merged_result df).map Row.asset).count p.1.asset)
        then "Yes" else "No") := by
  constructor
  · intro hp
    obtain ⟨i, hi⟩ := List.mem_iff_getElem?.mp hp
    rw [mergedWithDup, List.getElem?_zip_eq_some] at hi
    obtain ⟨h1, h2⟩ := hi
    refine ⟨List.getElem?_mem h1, ?_⟩
    rw [dupColumn_getElem? h1] at h2
    exact (Option.some.injEq _ _ ▸ h2).symm
  · rintro ⟨hmem, hflag⟩
    obtain ⟨i, hi⟩ := List.mem_iff_getElem?.mp hmem
    have h2 : (dupColumn (merged_result df))[i]? = some p.2 := by
      rw [dupColumn_getElem? hi, hflag]
    have : (mergedWithDup df)[i]? = some p := by
      rw [mergedWithDup, List.getElem?_zip_eq_some]
      exact ⟨hi, h2⟩
    exact List.getElem?_mem this

/-! Claim theorems. -/

/-- C4: the Normalizer `cleanse_asset_code` is a pure function that, on every
string input, returns the string with every non-decimal-digit character
deleted (the digit characters kept in order, as an in-order sublist of the
input), returns every non-string input (missing/null or numeric) unchanged,
and in particular maps "A-123/45" to "12345", the missing value to itself,
and "" to "". -/
theorem C4_normalizer :
    (∀ s : String,
      cleanse_asset_code (PyVal.str s) = PyVal.str ⟨s.data.filter Char.isDigit⟩
        ∧ (s.data.filter Char.isDigit).Sublist s.data
        ∧ (s.data.filter Char.isDigit).all Char.isDigit = true)
    ∧ cleanse_asset_code PyVal.na = PyVal.na
    ∧ (∀ n : Int, cleanse_asset_code (PyVal.int n) = PyVal.int n)
    ∧ cleanse_asset_code (PyVal.str "A-123/45") = PyVal.str "12345"
    ∧ cleanse_asset_code (PyVal.str "") = PyVal.str "" := by
  refine ⟨fun s => ⟨rfl, List.filter_sublist s.data, ?_⟩, rfl, fun n => rfl, by decide, rfl⟩
  rw [List.all_eq_true]
  intro c hc
  exact (List.mem_filter.mp hc).2

/-- C9: on every value the classifier accepts as Valid, the normalizer is the
identity; hence the cleansing pass over the correct rows changes nothing and
`correct_data` is exactly the Valid filter of the input. -/
theorem C9_cleanse_identity_on_valid :
    (∀ v : PyVal, is_invalid_asset v = false → cleanse_asset_code v = v)
    ∧ (∀ df : List Row, correct_data df = df.filter (fun r => ! is_invalid_asset r.asset)) :=
  ⟨fun _ h => valid_cleanse_id h, correct_data_eq⟩

/-- Witness for C9 at the concrete Valid value "12345". -/
theorem C9_witness :
    is_invalid_asset (PyVal.str "12345") = false
      ∧ cleanse_asset_code (PyVal.str "12345") = PyVal.str "12345" :=
  ⟨by decide, C9_cleanse_identity_on_valid.1 (PyVal.str "12345") (by decide)⟩

/-- C5 fails as stated: the code checks `isdigit` on the raw value, not the
trimmed one, so " 123" (digits surrounded by whitespace) is classified
Invalid although every disjunct of the claim (read on the trimmed value, as
stated) is false. -/
theorem C5_counterexample :
    is_invalid_asset (PyVal.str " 123") = true
      ∧ invalid_spec_claimed (PyVal.str " 123") = false :=
  ⟨by decide, by decide⟩

theorem any_not_digit {s : String} (hne : s.data ≠ []) :
    (s.data.any fun c => !c.isDigit) = !pyIsDigit s := by
  simp only [pyIsDigit]
  rw [show s.data.isEmpty = false from List.isEmpty_eq_false.mpr hne]
  simp only [Bool.not_false, Bool.true_and]
  cases hall : s.data.all Char.isDigit with
  | true =>
    rw [List.any_eq_false.mpr]
    · rfl
    · intro c hc
      rw [List.all_eq_true] at hall
      simp [hall c hc]
  | false =>
    rw [List.any_eq_true.mpr]
    · rfl
    · obtain ⟨c, hc, hcd⟩ := List.all_eq_false.mp hall
      exact ⟨c, hc, by simpa using hcd⟩

/-- C5 amended: the classifier returns Invalid exactly when the value is
missing, not a string, empty after trimming, all-zero digits, contains a
non-digit character anywhere in the raw (untrimmed) value, or contains a
configured junk token as a substring; unlike the claim as stated, the
digit checks are on the raw value, so whitespace-padded digit strings are
Invalid. -/
theorem C5_classifier_amended : ∀ v, is_invalid_asset v = invalid_spec_amended v := by
  intro v
  cases v with
  | na => rfl
  | int n => rfl
  | str s =>
    simp only [is_invalid_asset, invalid_spec_amended]
    by_cases h1 : pyStrip s = ""
    · rw [if_pos h1, h1]
      rfl
    · have hne : s.data ≠ [] := by
        intro hnil
        apply h1
        obtain ⟨l⟩ := s
        simp only at hnil
        subst hnil
        rfl
      rw [if_neg h1, show (pyStrip s == "") = false by simpa using h1, Bool.false_or]
      by_cases h2 : (pyIsDigit s && s.data.all (· == '0')) = true
      · rw [if_pos h2, h2]
        simp
      · rw [if_neg h2,
          show (pyIsDigit s && s.data.all (· == '0')) = false by simpa using h2,
          Bool.false_or, any_not_digit hne]
        cases hd : pyIsDigit s with
        | true =>
          simp only [Bool.not_true]
          rw [if_neg (by simp : ¬ (false = true)), Bool.false_or]
          cases hj : (INCORRECT_TERMS.any fun t => pyIn t s) with
          | true => rfl
          | false => rfl
        | false =>
          simp only [Bool.not_false]
          rw [if_pos trivial]
          simp

/-- C1 fails as stated: the split loop of process_excel splits only on runs
of space and comma (not slash, backslash or asterisk) and never applies the
normalizer, so the cell "123, 456/Computer" yields the two raw tokens "123"
and "456/Computer" rather than the claimed "123" and "456". -/
theorem C1_counterexample :
    (splitInvalidRow ⟨PyVal.str "123, 456/Computer", []⟩).map Row.asset
        = [PyVal.str "123", PyVal.str "456/Computer"]
      ∧ (splitInvalidRow ⟨PyVal.str "123, 456/Computer", []⟩).map Row.asset
        ≠ [PyVal.str "123", PyVal.str "456"] :=
  ⟨by decide, by decide⟩

/-- C1 amended: for an Invalid row, filter.py splits str(value) on runs of
space and comma only; every non-empty stripped token yields exactly one row
that is a copy of the source row (other fields unchanged) with the asset
field replaced by the raw token — no normalization and no dropping of
digit-free tokens — so "123, 456/Computer" yields rows "123" and
"456/Computer"; check.py's comparator splits on the full class
space/comma/slash/backslash/asterisk but also emits a record for every
token, including the digit-free "Computer". -/
theorem C1_splitter_amended :
    (∀ r r' : Row, r' ∈ splitInvalidRow r →
      r'.others = r.others
        ∧ ∃ tok ∈ pySplitTokens isFilterDelim (pyStr r.asset), r'.asset = PyVal.str tok)
    ∧ (∀ (r : Row), ∀ tok ∈ pySplitTokens isFilterDelim (pyStr r.asset),
        tok ≠ "" ∧ ∀ c ∈ tok.data, c ≠ ' ' ∧ c ≠ ',')
    ∧ (splitInvalidRow ⟨PyVal.str "123, 456/Computer", []⟩).map Row.asset
        = [PyVal.str "123", PyVal.str "456/Computer"]
    ∧ (process_comparison [⟨PyVal.str "123, 456/Computer", []⟩] []).map
        CompRecord.extractedAsset = ["123", "456", "Computer"] := by
  refine ⟨?_, ?_, by decide, by decide⟩
  · intro r r' hr'
    unfold splitInvalidRow at hr'
    obtain ⟨tok, htok, rfl⟩ := List.mem_map.mp hr'
    exact ⟨rfl, tok, htok, rfl⟩
  · intro r tok htok
    obtain ⟨hne, hdelim⟩ := mem_pySplitTokens htok
    refine ⟨hne, fun c hc => ?_⟩
    have := hdelim c hc
    simp only [isFilterDelim, Bool.or_eq_false_iff, beq_eq_false_iff_ne] at this
    exact this

/-- Witness for C1 (amended) at the row whose cell "7 8" splits into tokens
"7" and "8". -/
theorem C1_witness :
    ((⟨PyVal.str "7", []⟩ : Row) ∈ splitInvalidRow ⟨PyVal.str "7 8", []⟩)
      ∧ ((⟨PyVal.str "7", []⟩ : Row).others = (⟨PyVal.str "7 8", []⟩ : Row).others
        ∧ ∃ tok ∈ pySplitTokens isFilterDelim (pyStr (⟨PyVal.str "7 8", []⟩ : Row).asset),
            (⟨PyVal.str "7", []⟩ : Row).asset = PyVal.str tok) :=
  ⟨by decide, C1_splitter_amended.1 ⟨PyVal.str "7 8", []⟩ ⟨PyVal.str "7", []⟩ (by decide)⟩

/-- C2 fails as stated: split rows keep their raw token verbatim, so a row
whose cell is "Computer" survives into the merged dataset with the asset
code "Computer", which is neither empty nor all-digit. -/
theorem C2_counterexample :
    (merged_result [⟨PyVal.str "Computer", []⟩]).map Row.asset = [PyVal.str "Computer"]
      ∧ empty_or_all_digits (PyVal.str "Computer") = false :=
  ⟨by decide, by decide⟩

theorem str_ne_empty_data {s : String} (h : s ≠ "") : s.data ≠ [] := by
  intro hd
  apply h
  obtain ⟨l⟩ := s
  simp only at hd
  subst hd
  rfl

theorem correct_data_asset {df : List Row} {r : Row} (h : r ∈ correct_data df) :
    ∃ s, r.asset = PyVal.str s ∧ pyIsDigit s = true := by
  unfold correct_data at h
  obtain ⟨r0, hr0, rfl⟩ := List.mem_map.mp h
  have hval : is_invalid_asset r0.asset = false := by
    simpa using (List.mem_filter.mp hr0).2
  obtain ⟨s, hs, _, hd, _, _⟩ := valid_str hval
  rw [valid_cleanseRow_id hval]
  exact ⟨s, hs, hd⟩

theorem split_result_asset {df : List Row} {r : Row} (h : r ∈ split_result df) :
    ∃ tok, r.asset = PyVal.str tok ∧ tok ≠ ""
      ∧ ∀ c ∈ tok.data, isFilterDelim c = false := by
  unfold split_result at h
  obtain ⟨r0, _, hr⟩ := List.mem_flatMap.mp h
  unfold splitInvalidRow at hr
  obtain ⟨tok, htok, rfl⟩ := List.mem_map.mp hr
  obtain ⟨hne, hdelim⟩ := mem_pySplitTokens htok
  exact ⟨tok, rfl, hne, hdelim⟩

/-- C2 amended: every row of the merged dataset (and hence of the derived
views, which are filters of it) has an asset code that is a nonempty string
containing neither space nor comma; rows coming from the Valid partition are
all-digit, but split rows keep their raw token verbatim and may contain any
other character — the claimed "empty or all-digit" invariant does not hold. -/
theorem C2_invariant_amended : ∀ df : List Row,
    (∀ r ∈ merged_result df, ∃ s, r.asset = PyVal.str s ∧ s.data ≠ [] ∧
      ∀ c ∈ s.data, c ≠ ' ' ∧ c ≠ ',')
    ∧ (∀ r ∈ correct_data df, ∃ s, r.asset = PyVal.str s ∧ pyIsDigit s = true)
    ∧ (∀ p ∈ correct_no_duplicates df, p.1 ∈ merged_result df)
    ∧ (∀ p ∈ duplicate_wrong_data df, p.1 ∈ merged_result df)
    ∧ (∀ r ∈ tara_silom_data df, r ∈ correct_data df) := by
  intro df
  refine ⟨?_, fun r h => correct_data_asset h, ?_, ?_, ?_⟩
  · intro r hr
    rcases List.mem_append.mp hr with hc | hs
    · obtain ⟨s, hseq, hd⟩ := correct_data_asset hc
      refine ⟨s, hseq, ?_, ?_⟩
      · simp only [pyIsDigit, Bool.and_eq_true] at hd
        simpa using hd.1
      · intro c hc'
        simp only [pyIsDigit, Bool.and_eq_true, List.all_eq_true] at hd
        exact digit_not_space (hd.2 c hc')
    · obtain ⟨tok, hseq, hne, hdelim⟩ := split_result_asset hs
      refine ⟨tok, hseq, str_ne_empty_data hne, ?_⟩
      intro c hc'
      have := hdelim c hc'
      simp only [isFilterDelim, Bool.or_eq_false_iff, beq_eq_false_iff_ne] at this
      exact this
  · intro p hp
    exact (mem_mergedWithDup.mp (List.mem_filter.mp hp).1).1
  · intro p hp
    exact (mem_mergedWithDup.mp (List.mem_filter.mp hp).1).1
  · intro r hr
    exact (List.mem_filter.mp hr).1

/-- Witness for C2 (amended) at the one-row dataset with code "12". -/
theorem C2_witness :
    ((⟨PyVal.str "12", []⟩ : Row) ∈ merged_result [⟨PyVal.str "12", []⟩])
      ∧ ∃ s, (⟨PyVal.str "12", []⟩ : Row).asset = PyVal.str s ∧ s.data ≠ [] ∧
          ∀ c ∈ s.data, c ≠ ' ' ∧ c ≠ ',' :=
  ⟨by decide, (C2_invariant_amended [⟨PyVal.str "12", []⟩]).1 ⟨PyVal.str "12", []⟩ (by decide)⟩

/-- C3 fails as stated: a row whose code is still invalid after splitting but
not duplicated (here the lone "Computer" row) lands in BOTH the final correct
view and the duplicate/invalid view. -/
theorem C3_counterexample :
    correct_no_duplicates [⟨PyVal.str "Computer", []⟩]
        = [(⟨PyVal.str "Computer", []⟩, "No")]
      ∧ duplicate_wrong_data [⟨PyVal.str "Computer", []⟩]
        = [(⟨PyVal.str "Computer", []⟩, "No")] :=
  ⟨by decide, by decide⟩

/-- C3 amended: every merged row lands in at least one of the two views, and
in both exactly when it is non-duplicated yet still invalid; every Valid
input row survives (cleansed) into the merged dataset and every Invalid input
row survives as its split fragments, which are empty exactly when the cell
splits into zero non-empty tokens. -/
theorem C3_roundtrip_amended : ∀ df : List Row,
    (∀ p ∈ mergedWithDup df, p ∈ correct_no_duplicates df ∨ p ∈ duplicate_wrong_data df)
    ∧ (∀ p ∈ mergedWithDup df,
        (p ∈ correct_no_duplicates df ∧ p ∈ duplicate_wrong_data df)
          ↔ (p.2 = "No" ∧ is_invalid_asset p.1.asset = true))
    ∧ (∀ r ∈ df, is_invalid_asset r.asset = false → cleanseRow r ∈ merged_result df)
    ∧ (∀ r ∈ df, is_invalid_asset r.asset = true →
        (∀ r' ∈ splitInvalidRow r, r' ∈ merged_result df)
        ∧ (splitInvalidRow r = [] ↔ pySplitTokens isFilterDelim (pyStr r.asset) = [])) := by
  intro df
  refine ⟨?_, ?_, ?_, ?_⟩
  · intro p hp
    obtain ⟨hmem, hflag⟩ := mem_mergedWithDup.mp hp
    by_cases hge : 2 ≤ ((merged_result df).map Row.asset).count p.1.asset
    · right
      rw [if_pos hge] at hflag
      refine List.mem_filter.mpr ⟨hp, ?_⟩
      rw [hflag]
      simp
    · left
      rw [if_neg hge] at hflag
      refine List.mem_filter.mpr ⟨hp, ?_⟩
      rw [hflag]
      simp
  · intro p hp
    constructor
    · rintro ⟨h1, h2⟩
      have hno : p.2 = "No" := by
        have := (List.mem_filter.mp h1).2
        simpa using this
      refine ⟨hno, ?_⟩
      have := (List.mem_filter.mp h2).2
      rw [hno] at this
      simpa using this
    · rintro ⟨hno, hinv⟩
      constructor
      · refine List.mem_filter.mpr ⟨hp, ?_⟩
        rw [hno]
        simp
      · refine List.mem_filter.mpr ⟨hp, ?_⟩
        rw [hinv]
        simp
  · intro r hr hval
    apply List.mem_append.mpr
    left
    unfold correct_data
    exact List.mem_map.mpr ⟨r, List.mem_filter.mpr ⟨hr, by simp [hval]⟩, rfl⟩
  · intro r hr hinv
    constructor
    · intro r' hr'
      apply List.mem_append.mpr
      right
      unfold split_result
      exact List.mem_flatMap.mpr ⟨r, List.mem_filter.mpr ⟨hr, hinv⟩, hr'⟩
    · unfold splitInvalidRow
      exact List.map_eq_nil_iff

/-- Witness for C3 (amended) at the one-row dataset with code "5". -/
theorem C3_witness :
    ((⟨PyVal.str "5", []⟩, "No") ∈ mergedWithDup [⟨PyVal.str "5", []⟩])
      ∧ ((⟨PyVal.str "5", []⟩, "No") ∈ correct_no_duplicates [⟨PyVal.str "5", []⟩]
        ∨ (⟨PyVal.str "5", []⟩, "No") ∈ duplicate_wrong_data [⟨PyVal.str "5", []⟩]) :=
  ⟨by decide,
    (C3_roundtrip_amended [⟨PyVal.str "5", []⟩]).1 (⟨PyVal.str "5", []⟩, "No") (by decide)⟩

/-- C6: over the merged dataset the "Duplicate" column is "Yes" at exactly
the positions whose asset code occurs at least twice (by exact equality of
the canonical value) and "No" everywhere else; the merged codes
["100","200","100"] are marked ["Yes","No","Yes"] and an all-distinct
dataset gets no "Yes". -/
theorem C6_duplicate_detector :
    (∀ (merged : List Row) (i : Nat) (r : Row), merged[i]? = some r →
      (dupColumn merged)[i]?
        = some (if 2 ≤ ((merged.map Row.asset).count r.asset) then "Yes" else "No"))
    ∧ dupColumn [⟨PyVal.str "100", []⟩, ⟨PyVal.str "200", []⟩, ⟨PyVal.str "100", []⟩]
        = ["Yes", "No", "Yes"]
    ∧ dupColumn [⟨PyVal.str "100", []⟩, ⟨PyVal.str "200", []⟩, ⟨PyVal.str "300", []⟩]
        = ["No", "No", "No"] :=
  ⟨fun _ _ _ h => dupColumn_getElem? h, by decide, by decide⟩

/-- Witness for C6 at position 0 of the merged codes ["100","200","100"]. -/
theorem C6_witness :
    (([⟨PyVal.str "100", []⟩, ⟨PyVal.str "200", []⟩, ⟨PyVal.str "100", []⟩] :
        List Row)[0]? = some ⟨PyVal.str "100", []⟩)
      ∧ (dupColumn [⟨PyVal.str "100", []⟩, ⟨PyVal.str "200", []⟩, ⟨PyVal.str "100", []⟩])[0]?
        = some (if 2 ≤ ((([⟨PyVal.str "100", []⟩, ⟨PyVal.str "200", []⟩,
              ⟨PyVal.str "100", []⟩] : List Row).map Row.asset).count
            (Row.mk (PyVal.str "100") []).asset) then "Yes" else "No") :=
  ⟨by decide,
    C6_duplicate_detector.1 [⟨PyVal.str "100", []⟩, ⟨PyVal.str "200", []⟩,
      ⟨PyVal.str "100", []⟩] 0 ⟨PyVal.str "100", []⟩ (by decide)⟩

instance : IsTotal (String × Nat) (fun a b => b.2 ≤ a.2) :=
  ⟨fun a b => Nat.le_total b.2 a.2⟩

instance : IsTrans (String × Nat) (fun a b => b.2 ≤ a.2) :=
  ⟨fun _ _ _ h1 h2 => Nat.le_trans h2 h1⟩

/-- C7 (spec-modelled, no Domain Summarizer exists in src): the frequency
table has one row per distinct extracted domain (no key repeats, and every
extracted domain appears), each row carries the exact occurrence count of its
domain, rows are in descending-count order, a missing value falls back to the
configured default domain, and the spec's concrete example holds. -/
theorem C7_domain_summary :
    (∀ (dd : String) (vals : List PyVal),
      ((domain_summary dd vals).map Prod.fst).Nodup)
    ∧ (∀ (dd : String) (vals : List PyVal), ∀ p ∈ domain_summary dd vals,
        p.2 = (vals.map (extract_domain dd)).count p.1
          ∧ p.1 ∈ vals.map (extract_domain dd))
    ∧ (∀ (dd : String) (vals : List PyVal) (d : String),
        d ∈ vals.map (extract_domain dd) → d ∈ (domain_summary dd vals).map Prod.fst)
    ∧ (∀ (dd : String) (vals : List PyVal),
        (domain_summary dd vals).Sorted (fun a b => b.2 ≤ a.2))
    ∧ extract_domain "cpall.co.th" PyVal.na = "cpall.co.th"
    ∧ domain_summary "cpall.co.th"
        [PyVal.str "a@x.com", PyVal.str "b@x.com", PyVal.str "c@y.com", PyVal.str ""]
        = [("x.com", 2), ("y.com", 1), ("cpall.co.th", 1)] := by
  refine ⟨?_, ?_, ?_, ?_, rfl, by decide⟩
  · intro dd vals
    unfold domain_summary
    have hperm := (List.perm_insertionSort (fun a b : String × Nat => b.2 ≤ a.2)
      ((vals.map (extract_domain dd)).dedup.map
        (fun d => (d, (vals.map (extract_domain dd)).count d)))).map Prod.fst
    rw [hperm.nodup_iff, List.map_map]
    have hcomp : (Prod.fst ∘ fun d => (d, (vals.map (extract_domain dd)).count d))
        = fun d : String => d := rfl
    rw [hcomp]
    simpa using List.nodup_dedup _
  · intro dd vals p hp
    unfold domain_summary at hp
    rw [List.mem_insertionSort] at hp
    obtain ⟨d, hd, rfl⟩ := List.mem_map.mp hp
    exact ⟨rfl, List.mem_dedup.mp hd⟩
  · intro dd vals d hd
    unfold domain_summary
    refine List.mem_map.mpr ⟨(d, (vals.map (extract_domain dd)).count d), ?_, rfl⟩
    rw [List.mem_insertionSort]
    exact List.mem_map.mpr ⟨d, List.mem_dedup.mpr hd, rfl⟩
  · intro dd vals
    unfold domain_summary
    exact List.sorted_insertionSort _ _

/-- Witness for C7 at the spec's concrete example, row ("x.com", 2). -/
theorem C7_witness :
    (("x.com", 2) ∈ domain_summary "cpall.co.th"
        [PyVal.str "a@x.com", PyVal.str "b@x.com", PyVal.str "c@y.com", PyVal.str ""])
      ∧ (("x.com", 2).2
          = (([PyVal.str "a@x.com", PyVal.str "b@x.com", PyVal.str "c@y.com",
              PyVal.str ""]).map (extract_domain "cpall.co.th")).count ("x.com", 2).1
        ∧ ("x.com", 2).1 ∈ ([PyVal.str "a@x.com", PyVal.str "b@x.com",
            PyVal.str "c@y.com", PyVal.str ""]).map (extract_domain "cpall.co.th")) :=
  ⟨by decide,
    C7_domain_summary.2.1 "cpall.co.th"
      [PyVal.str "a@x.com", PyVal.str "b@x.com", PyVal.str "c@y.com", PyVal.str ""]
      ("x.com", 2) (by decide)⟩

/-- C8 fails as stated: neither source file attempts any fallback recovery
reader — on a read failure filter.py immediately shows the error and
produces no output, while the spec's fallback policy (modelled as
`readWithFallbackSpec`) would have recovered here. -/
theorem C8_counterexample :
    runFilterApp (ReadOutcome.err "corrupt workbook") (fun ns => ns.headD "")
        (fun _ => (0 : Nat))
      = (none, some "Error reading sheets: corrupt workbook")
      ∧ readWithFallbackSpec (ReadOutcome.err "corrupt workbook")
        (ReadOutcome.ok ["Sheet1"]) = ReadOutcome.ok ["Sheet1"] :=
  ⟨by decide, rfl⟩

/-- C8 amended: when the workbook cannot be read, each app reports the
failure to the operator as a single message and aborts the run with no
output produced; no fallback recovery reader is attempted. -/
theorem C8_read_failure_amended :
    (∀ (α : Type) (e : String) (select : List String → String) (proc : String → α),
      runFilterApp (ReadOutcome.err e) select proc
        = (none, some ("Error reading sheets: " ++ e)))
    ∧ (∀ (e : String) (rc : ReadOutcome (List Int)),
        runCompareApp (ReadOutcome.err e) rc = (none, some ("Error: " ++ e))) :=
  ⟨fun _ _ _ _ => rfl, fun _ rc => by cases rc <;> rfl⟩

theorem correct_no_duplicates_nodup (df : List Row) :
    ((correct_no_duplicates df).map (fun p => p.1.asset)).Nodup := by
  rw [List.nodup_iff_count_le_one]
  intro a
  by_cases ha : a ∈ (correct_no_duplicates df).map (fun p => p.1.asset)
  · obtain ⟨p, hp, rfl⟩ := List.mem_map.mp ha
    obtain ⟨hpm, hno⟩ := List.mem_filter.mp hp
    obtain ⟨hmem, hflag⟩ := mem_mergedWithDup.mp hpm
    have hcnt : ¬ 2 ≤ ((merged_result df).map Row.asset).count p.1.asset := by
      intro hge
      rw [if_pos hge] at hflag
      rw [hflag] at hno
      simp at hno
    have hsub : ((correct_no_duplicates df).map (fun p : Row × String => p.1.asset)).Sublist
        ((mergedWithDup df).map (fun p : Row × String => p.1.asset)) :=
      (List.filter_sublist _).map _
    have heq : (mergedWithDup df).map (fun p : Row × String => p.1.asset)
        = (merged_result df).map Row.asset := by
      unfold mergedWithDup
      rw [show (fun p : Row × String => p.1.asset) = (Row.asset ∘ Prod.fst) from rfl,
        ← List.map_map, List.map_fst_zip]
      exact Nat.le_of_eq (dupColumn_length _).symm
    have hle := hsub.count_le p.1.asset
    rw [heq] at hle
    omega
  · rw [List.count_eq_zero.mpr ha]
    omega

theorem correct_no_duplicates_dupvalues (df : List Row) :
    duplicateValues ((correct_no_duplicates df).map (fun p => p.1.asset)) = [] := by
  unfold duplicateValues
  rw [List.filter_eq_nil_iff.mpr, List.dedup_nil]
  intro v hv
  have hnd := correct_no_duplicates_nodup df
  rw [List.nodup_iff_count_le_one] at hnd
  have := hnd v
  simp only [decide_eq_true_eq]
  omega

/-- C10: the asset codes of the "Correct Data" sheet (merged rows whose
Duplicate column is "No") are pairwise distinct, so the highlighting pass
over that column finds no value occurring more than once and highlights no
cell. -/
theorem C10_correct_view_distinct : ∀ df : List Row,
    ((correct_no_duplicates df).map (fun p => p.1.asset)).Nodup
    ∧ duplicateValues ((correct_no_duplicates df).map (fun p => p.1.asset)) = []
    ∧ (highlightedCells ((correct_no_duplicates df).map (fun p => p.1.asset))).all
        (fun b => b == false) = true := by
  intro df
  refine ⟨correct_no_duplicates_nodup df, correct_no_duplicates_dupvalues df, ?_⟩
  unfold highlightedCells
  rw [correct_no_duplicates_dupvalues df]
  rw [List.all_eq_true]
  intro b hb
  obtain ⟨v, _, rfl⟩ := List.mem_map.mp hb
  simp
